import Mathlib

/-!
# Verification of the effection-benchmarks CLI core

A shallow embedding, in Lean 4, of the parts of the
`taras/effection-benchmarks` repository that the specification's claims
are about:

* the statistics engine (`calculateStats` / `percentile`, from the
  stats module concatenated into `src/cli/lib/schema.ts`);
* the `Result` aggregation helpers (`src/cli/lib/result.ts`);
* the orchestration loop of the `run` command
  (`src/cli/commands/run.ts`, lines 219–258);
* the harness subprocess entry point (`src/cli/harness/entry.ts`,
  `src/cli/harness/args.ts`, `src/cli/harness/measure.ts`,
  `src/cli/scenarios/mod.ts`);
* workspace provisioning (`useWorkspace` / `computeCacheKey`).

JavaScript numbers are modelled as rationals (`ℚ`); `Math.sqrt` is kept
out of the definitions (which stay executable) by storing the variance
and phrasing standard-deviation facts through `Real.sqrt` in theorem
statements.  Thrown JavaScript values are modelled explicitly and
fallible code returns `Except`.
-/

set_option linter.unusedVariables false

namespace Bench

/-! ## Statistics engine

Source: the statistics module (`calculateStats`, `percentile`,
`StatsResult`) whose text appears in `src/cli/lib/schema.ts` after the
schema definitions.  All time values are rationals standing for the
JavaScript doubles.
-/

/-- `JSON` sort of the source: `[...times].sort((a, b) => a - b)` sorts the
samples ascending.  On numbers, any correct ascending sort computes the
same list (it is the unique sorted permutation up to equal elements,
which for numbers are identical), so we model it with insertion sort,
which Lean can also evaluate by `decide`/`rfl`. -/
def sortAsc (l : List ℚ) : List ℚ :=
  List.insertionSort (· ≤ ·) l

/-- Result of stats calculation including raw times
(interface `StatsResult`).  The source stores `stdDev = Math.sqrt(variance)`;
we store the variance itself so the development stays executable, and state
standard-deviation facts as `Real.sqrt variance`. -/
structure StatsResult where
  reps : ℕ
  times : List ℚ
  avgTime : ℚ
  minTime : ℚ
  maxTime : ℚ
  variance : ℚ
  p50 : ℚ
  p95 : ℚ
  p99 : ℚ
  deriving Repr, DecidableEq

/-- The indexing expression of `percentile`:
`const index = Math.ceil((p / 100) * sorted.length) - 1;`
followed by `sorted[Math.max(0, index)]`.  JavaScript indexing past the
end of the array yields `undefined`; that out-of-range case (impossible
for `0 < p ≤ 100`) is modelled by the `getD` default. -/
def percentileVal (sorted : List ℚ) (p : ℚ) : ℚ :=
  let index : ℤ := ⌈p / 100 * (sorted.length : ℚ)⌉ - 1
  sorted.getD (max 0 index).toNat 0

/-- `percentile(sorted, p)` from the source: throws on an empty array,
otherwise returns the nearest-rank element. -/
def percentile (sorted : List ℚ) (p : ℚ) : Except String ℚ :=
  if sorted.isEmpty then
    .error "Cannot calculate percentile from empty array"
  else
    .ok (percentileVal sorted p)

/-- The local `sum` of `calculateStats`: `times.reduce((a, b) => a + b, 0)`. -/
def sumOf (times : List ℚ) : ℚ :=
  times.foldl (· + ·) 0

/-- The local `avg` of `calculateStats`: `sum / times.length`. -/
def avgOf (times : List ℚ) : ℚ :=
  sumOf times / (times.length : ℚ)

/-- The local `variance` of `calculateStats`:
`times.reduce((acc, t) => acc + (t - avg) ** 2, 0) / times.length`. -/
def varOf (times : List ℚ) : ℚ :=
  (times.foldl (fun acc t => acc + (t - avgOf times) ^ 2) 0) / (times.length : ℚ)

/-- `calculateStats(times)` from the source.  Throws (here: `.error`) on an
empty input; otherwise sorts ascending, computes sum/avg/variance with the
`reduce` folds of the source (named `sumOf`/`avgOf`/`varOf` above), and
reads min/max and the three percentiles off the sorted array.  The
`percentile` calls are sequenced with `Except` bind: were they to throw,
`calculateStats` would propagate the exception, exactly as in
JavaScript. -/
def calculateStats (times : List ℚ) : Except String StatsResult :=
  if times.isEmpty then
    .error "Cannot calculate stats from empty array"
  else
    let sorted := sortAsc times
    do
      let p50 ← percentile sorted 50
      let p95 ← percentile sorted 95
      let p99 ← percentile sorted 99
      pure
        { reps := times.length
          times := times
          avgTime := avgOf times
          minTime := sorted.getD 0 0
          maxTime := sorted.getD (sorted.length - 1) 0
          variance := varOf times
          p50 := p50
          p95 := p95
          p99 := p99 }

/-- The claim's description of the percentile rule, written from the
spec's words: ascending sort, index `ceil((p/100) * n) - 1` clamped to
`[0, n-1]` (nearest-rank).  Used only to compare against the source's
`percentile`. -/
def nearestRankSpec (times : List ℚ) (p : ℚ) : ℚ :=
  let s := sortAsc times
  let n : ℤ := s.length
  let index : ℤ := ⌈p / 100 * (s.length : ℚ)⌉ - 1
  s.getD (min (n - 1) (max 0 index)).toNat 0

/-! ## Result aggregation (`src/cli/lib/result.ts`)

A JavaScript `Error` is modelled as its message; a thrown value is either
an `Error` or some other value (carried as its string conversion).  The
observable outcome of an Effection operation is modelled as an
`Except Thrown`: the operation either completes with a value or throws.
-/

/-- A JavaScript `Error` object (only the message is relevant here). -/
structure JSError where
  message : String
  deriving Repr, DecidableEq

/-- A thrown JavaScript value: an `Error`, or any other value
(represented by its `String(...)` conversion). -/
inductive Thrown where
  | err (e : JSError)
  | other (s : String)
  deriving Repr, DecidableEq

/-- `toError` from the source:
`error instanceof Error ? error : new Error(String(error))`. -/
def toError : Thrown → JSError
  | .err e => e
  | .other s => ⟨s⟩

/-- The discriminated union `Result<T>` from the source:
`{ok: true; value: T} | {ok: false; error: Error; context: string}`. -/
inductive Result (T : Type) where
  | ok (value : T)
  | err (error : JSError) (context : String)
  deriving Repr, DecidableEq

/-- `wrapResult(context, op)`: runs the operation inside `try`/`catch` and
returns a `Result` instead of throwing.  The operation's outcome is the
`Except Thrown T` argument. -/
def wrapResult {T : Type} (context : String) (op : Except Thrown T) : Result T :=
  match op with
  | .ok value => .ok value
  | .error e => .err (toError e) context

/-- `isOk(result)` from the source. -/
def isOk {T : Type} : Result T → Bool
  | .ok _ => true
  | .err _ _ => false

/-- `isErr(result)` from the source. -/
def isErr {T : Type} : Result T → Bool
  | .ok _ => false
  | .err _ _ => true

/-- The projection used by `successes`: `r.value` on an `ok` result.
`results.filter(isOk).map((r) => r.value)` is rendered as the equivalent
`filterMap` (the type guard of the TypeScript `filter` is what makes the
`map` total there). -/
def okValue {T : Type} : Result T → Option T
  | .ok value => some value
  | .err _ _ => none

/-- The projection used by `failures`: `{error: r.error, context: r.context}`
on an `err` result. -/
def errPair {T : Type} : Result T → Option (JSError × String)
  | .ok _ => none
  | .err error context => some (error, context)

/-- `successes(results)` from the source. -/
def successes {T : Type} (results : List (Result T)) : List T :=
  results.filterMap okValue

/-- `failures(results)` from the source. -/
def failures {T : Type} (results : List (Result T)) : List (JSError × String) :=
  results.filterMap errPair

/-- The canonical projection of a `Result` onto its payload: used to state
that `successes` and `failures` are the two sides of an order-preserving
partition of the input list. -/
def resultSide {T : Type} : Result T → T ⊕ (JSError × String)
  | .ok value => .inl value
  | .err error context => .inr (error, context)

/-! ## The `run` command's orchestration loop
(`src/cli/commands/run.ts`, lines 219–258)

`runCommand` parses the CLI options (among them `fail-fast`, declared at
lines 72–78 with description "Stop on first failure"), provisions one
workspace, and then runs every runtime of the request sequentially,
wrapping each `runForRuntime` call with `wrapResult`.  The loop body
(lines 221–232) contains no test of the `fail-fast` flag — the parsed
option is never read again — so the flag is carried below as an argument
that the definition does not consult, exactly like the source.

The model abstracts a runtime's whole `runForRuntime` execution into its
observable outcome (`Except Thrown (List β)`: a list of benchmark results,
or a thrown error), and records which runtimes the loop invoked, which
results were written, which contexts the failure report names, and the
returned exit code.
-/

/-- Observable outcome of the orchestration part of `runCommand`. -/
structure OrchOutcome (β : Type) where
  /-- Runtimes on which the loop called `runForRuntime`. -/
  invoked : List String
  /-- Benchmark results passed to `writeResult`, in order. -/
  written : List β
  /-- The contexts named in the `Failures:` report. -/
  failureSummary : List String
  /-- The exit code returned by `runCommand`. -/
  exitCode : ℕ
  deriving Repr, DecidableEq

/-- The orchestration loop and result processing of `runCommand`
(run.ts lines 219–258).  The `for (const runtime of runtimes)` loop has no
break and no `fail-fast` check, so every runtime is invoked; successes are
flattened and written in order; failures are reported by context; the exit
code is `failedResults.length > 0 ? 1 : 0`. -/
def runCommandLoop (β : Type) (failFast : Bool) (runtimes : List String)
    (runForRuntime : String → Except Thrown (List β)) : OrchOutcome β :=
  let results := runtimes.map (fun rt => wrapResult rt (runForRuntime rt))
  let successfulResults := successes results
  let failedResults := failures results
  { invoked := runtimes
    written := successfulResults.flatten
    failureSummary := failedResults.map (·.2)
    exitCode := if failedResults.length > 0 then 1 else 0 }

/-! ## Harness argument parsing (`src/cli/harness/args.ts`)

JavaScript `parseInt(s, 10)` yields an integer, or `NaN` when no leading
digits exist; numbers that may be `NaN` are modelled as `Option ℤ` with
`none` for `NaN`.  Comparisons against `NaN` are false, which the helpers
`leNum`/`ltNum` reproduce.
-/

/-- `parseInt(s, 10)`: skip leading whitespace, optional sign, then the
maximal run of decimal digits; `NaN` (here `none`) when that run is
empty. -/
def parseIntJS (s : String) : Option ℤ :=
  let cs := s.data.dropWhile (fun c => c.isWhitespace)
  let signed : ℤ × List Char :=
    match cs with
    | '-' :: t => (-1, t)
    | '+' :: t => (1, t)
    | _ => (1, cs)
  let digits := signed.2.takeWhile (fun c => c.isDigit)
  if digits.isEmpty then none
  else
    some (signed.1 *
      (digits.foldl (fun acc c => acc * 10 + (c.toNat - '0'.toNat)) 0 : ℕ))

/-- `x <= b` on a JavaScript number that may be `NaN` (false for `NaN`). -/
def leNum (x : Option ℤ) (b : ℤ) : Bool :=
  match x with
  | none => false
  | some v => v ≤ b

/-- `x < b` on a JavaScript number that may be `NaN` (false for `NaN`). -/
def ltNum (x : Option ℤ) (b : ℤ) : Bool :=
  match x with
  | none => false
  | some v => v < b

/-- Interface `HarnessArgs` from the source. -/
structure HarnessArgs where
  scenario : String
  depth : Option ℤ
  «repeat» : Option ℤ
  warmup : Option ℤ
  json : Bool
  deriving Repr, DecidableEq

/-- The `for` loop of `parseHarnessArgs`: each value flag consumes the
following argument (`i++`); a missing or empty value falls back to the
flag's default via `next || "…"` (the empty string is falsy). -/
def parseHarnessArgsLoop (r : HarnessArgs) : List String → HarnessArgs
  | [] => r
  | [arg] =>
    -- the value of a trailing value flag is `undefined`
    match arg with
    | "--scenario" => { r with scenario := "" }
    | "--depth" => { r with depth := parseIntJS "100" }
    | "--repeat" => { r with «repeat» := parseIntJS "10" }
    | "--warmup" => { r with warmup := parseIntJS "3" }
    | "--json" => { r with json := true }
    | _ => r
  | arg :: next :: rest =>
    match arg with
    | "--scenario" =>
        parseHarnessArgsLoop { r with scenario := next } rest
    | "--depth" =>
        parseHarnessArgsLoop
          { r with depth := parseIntJS (if next = "" then "100" else next) } rest
    | "--repeat" =>
        parseHarnessArgsLoop
          { r with «repeat» := parseIntJS (if next = "" then "10" else next) } rest
    | "--warmup" =>
        parseHarnessArgsLoop
          { r with warmup := parseIntJS (if next = "" then "3" else next) } rest
    | "--json" =>
        parseHarnessArgsLoop { r with json := true } (next :: rest)
    | _ => parseHarnessArgsLoop r (next :: rest)

/-- `parseHarnessArgs(args)` from the source, with its defaults
`{scenario: "", depth: 100, repeat: 10, warmup: 3, json: false}`. -/
def parseHarnessArgs (args : List String) : HarnessArgs :=
  parseHarnessArgsLoop
    { scenario := "", depth := some 100, «repeat» := some 10,
      warmup := some 3, json := false } args

/-- `validateHarnessArgs(args)` from the source: `!args.scenario` is true
exactly for the empty string, and the numeric comparisons are false on
`NaN`. -/
def validateHarnessArgs (a : HarnessArgs) : Option String :=
  if a.scenario = "" then some "Missing required --scenario argument"
  else if leNum a.depth 0 then some "--depth must be positive"
  else if leNum a.«repeat» 0 then some "--repeat must be positive"
  else if ltNum a.warmup 0 then some "--warmup cannot be negative"
  else none

/-! ## Scenario registry (`src/cli/scenarios/mod.ts`)

The registry object maps scenario names to scenario values; for the
harness contract only the name and the `library` field (which names the
result record) are observable, so a scenario is modelled by that pair.
The scenario functions themselves are terminating benchmark loops that
complete without throwing.
-/

/-- The `scenarios` record, in insertion order (`Object.keys` order). -/
def scenarios : List (String × String) :=
  [("effection.recursion", "effection"),
   ("effection.events", "effection"),
   ("effection-inline.recursion", "effection-inline"),
   ("async-await.recursion", "async-await"),
   ("rxjs.recursion", "rxjs"),
   ("rxjs.events", "rxjs"),
   ("co.recursion", "co"),
   ("effect.recursion", "effect"),
   ("effect.events", "effect"),
   ("add-event-listener.events", "addEventListener")]

/-- `getScenario(name)`: the registry lookup, returning the scenario's
`library` field. -/
def getScenario (name : String) : Option String :=
  (scenarios.find? (fun p => p.1 = name)).map (·.2)

/-- `listScenarios()`: the registry's keys. -/
def listScenarios : List String :=
  scenarios.map (·.1)

/-! ## Harness entry point (`src/cli/harness/entry.ts`) and `measure`
(`src/cli/harness/measure.ts`)

The measured elapsed times come from `performance.now()` — real time —
so the model takes the sequence of elapsed values as a parameter
`timings : ℕ → ℚ` (the `i`-th measured run takes `timings i`
milliseconds).  Warmup runs are discarded by the source and do not
appear in the outcome.
-/

/-- `measure(scenarioFn, opts)`: the measured loop
`for (let i = 0; i < opts.repeat; i++)` pushes one elapsed sample per
iteration (zero iterations when `repeat` is `NaN`), then calls
`calculateStats`. -/
def measure (timings : ℕ → ℚ) (repeatCount : Option ℤ) : Except String StatsResult :=
  let times :=
    match repeatCount with
    | none => []
    | some n => (List.range n.toNat).map timings
  calculateStats times

/-- Rendering of one number for console output.  JavaScript prints
decimal float representations; the claims only ever inspect the first
character of a whole line, so the digits are abstracted by the exact
rational (the `stdDev` slot renders through the variance it is the square
root of). -/
def qstr (q : ℚ) : String :=
  toString q.num ++ "/" ++ toString q.den

/-- The single structured stdout line
`console.log(JSON.stringify({results: [{name, stats}]}))`.  Its first
character is `{`. -/
def jsonLine (library : String) (s : StatsResult) : String :=
  "\x7b\"results\":[\x7b\"name\":\"" ++ library ++ "\",\"stats\":\x7b\"avgTime\":"
    ++ qstr s.avgTime ++ ",\"minTime\":" ++ qstr s.minTime
    ++ ",\"maxTime\":" ++ qstr s.maxTime ++ ",\"stdDev\":sqrt:" ++ qstr s.variance
    ++ ",\"p50\":" ++ qstr s.p50 ++ ",\"p95\":" ++ qstr s.p95
    ++ ",\"p99\":" ++ qstr s.p99 ++ "\x7d\x7d]\x7d"

/-- The human-readable branch of the entry point: each `console.log`
line, in order.  No line starts with `{`. -/
def plainLines (scenarioName library : String) (s : StatsResult) : List String :=
  ["Scenario: " ++ scenarioName,
   "Library: " ++ library,
   "Stats:",
   "  avgTime: " ++ qstr s.avgTime ++ " ms",
   "  minTime: " ++ qstr s.minTime ++ " ms",
   "  maxTime: " ++ qstr s.maxTime ++ " ms",
   "  stdDev: sqrt:" ++ qstr s.variance ++ " ms",
   "  p50: " ++ qstr s.p50 ++ " ms",
   "  p95: " ++ qstr s.p95 ++ " ms",
   "  p99: " ++ qstr s.p99 ++ " ms"]

/-- The `\nAvailable scenarios: …` diagnostic printed on both error
paths of the entry point. -/
def availableLine : String :=
  "\nAvailable scenarios: " ++ String.intercalate ", " listScenarios

/-- Observable outcome of one harness subprocess invocation. -/
structure HarnessRun where
  stdoutLines : List String
  stderrLines : List String
  exitCode : ℕ
  deriving Repr, DecidableEq

/-- The `main(function* () { … })` body of `src/cli/harness/entry.ts`:
parse, validate (exit 1 with diagnostics on failure), look up the
scenario (exit 1 with diagnostics when unknown), measure, then print
either the JSON record or the plain report and exit 0.  An exception
escaping the generator (e.g. `calculateStats` on an empty sample list)
is handled by Effection's `main`, which prints the error to stderr and
exits the process with code 1. -/
def harnessMain (timings : ℕ → ℚ) (args : List String) : HarnessRun :=
  let a := parseHarnessArgs args
  match validateHarnessArgs a with
  | some msg => ⟨[], ["Error: " ++ msg, availableLine], 1⟩
  | none =>
    match getScenario a.scenario with
    | none => ⟨[], ["Unknown scenario: " ++ a.scenario, availableLine], 1⟩
    | some library =>
      match measure timings a.«repeat» with
      | .error e => ⟨[], [e], 1⟩
      | .ok stats =>
        if a.json then ⟨[jsonLine library stats], [], 0⟩
        else ⟨plainLines a.scenario library stats, [], 0⟩

/-- Whether a line matches the regex `^\{`: its first character is `{`. -/
def matchesBrace (s : String) : Bool :=
  s.data.head? = some '\x7b'

/-- Number of stdout lines matching `^\{`. -/
def braceLineCount (r : HarnessRun) : ℕ :=
  (r.stdoutLines.filter matchesBrace).length

/-! ## Workspace provisioning (`useWorkspace`, `computeCacheKey`)

The filesystem is abstracted to the one marker the code consults: the
set of directories `d` for which `d/node_modules` exists and is a
directory (`hasNodeModules`).  The SHA-256-and-truncate pipeline of
`computeCacheKey` is abstracted as a `hash : String → String` parameter
applied to the exact serialization the source hashes; claims about
distinct keys carry the collision-freeness of the hash as a hypothesis.
`npm install` is represented by its exit code together with its effect:
a successful install creates the `node_modules` marker in the target
directory, a failed one does not, and a temporary workspace (and its
marker) is deleted again when the scope exits.
-/

/-- `comparisonVersions` of `WorkspaceConfig`. -/
structure ComparisonVersions where
  rxjs : String
  effect : String
  co : String
  deriving Repr, DecidableEq

/-- `WorkspaceConfig` from the source. -/
structure WorkspaceConfig where
  effectionVersion : String
  comparisonVersions : ComparisonVersions
  useCache : Bool
  deriving Repr, DecidableEq

/-- The abstracted filesystem: directories whose `node_modules`
subdirectory exists. -/
structure FSState where
  nodeModules : List String
  deriving Repr, DecidableEq

/-- `hasNodeModules(dir)` from the source: `Deno.stat(dir + "/node_modules")`
succeeds and reports a directory. -/
def hasNodeModules (fs : FSState) (dir : String) : Bool :=
  fs.nodeModules.contains dir

/-- The serialization `JSON.stringify({effection, rxjs, effect, co})`
that `computeCacheKey` hashes. -/
def serializeCacheConfig (c : WorkspaceConfig) : String :=
  "\x7b\"effection\":\"" ++ c.effectionVersion
    ++ "\",\"rxjs\":\"" ++ c.comparisonVersions.rxjs
    ++ "\",\"effect\":\"" ++ c.comparisonVersions.effect
    ++ "\",\"co\":\"" ++ c.comparisonVersions.co ++ "\"\x7d"

/-- `computeCacheKey(config)`: the digest of the serialized config
(`hash` stands for hex-encoded, truncated SHA-256). -/
def computeCacheKey (hash : String → String) (c : WorkspaceConfig) : String :=
  hash (serializeCacheConfig c)

/-- `getCacheDir()` from the source: `${home}/.cache/effection-bench`. -/
def getCacheDir (home : String) : String :=
  home ++ "/.cache/effection-bench"

/-- The cache directory a cached workspace for `c` lives in. -/
def workspaceDir (hash : String → String) (home : String)
    (c : WorkspaceConfig) : String :=
  getCacheDir home ++ "/" ++ computeCacheKey hash c

/-- What one `useWorkspace` call hands to (or withholds from) its caller. -/
structure Provisioned where
  /-- `Workspace.path` as passed to `provide`. -/
  path : String
  /-- Whether the dependency-install step ran during this call. -/
  installRan : Bool
  deriving Repr, DecidableEq

/-- `useWorkspace(config)` from the source, as one provision call:
in cached mode the directory is derived from the cache key and
`npm install` runs only when the `node_modules` marker is absent; in
temp mode a fresh directory always installs and is removed again on
scope exit.  A non-zero `npm install` exit throws before `provide`, so
the caller receives the error and no workspace; the resulting `FSState`
is the state after the call (including scope-exit cleanup of a temp
directory). -/
def useWorkspace (hash : String → String) (home tempDir : String)
    (npmExitCode : ℕ) (npmStderr : String)
    (c : WorkspaceConfig) (fs : FSState) :
    Except JSError (Provisioned × FSState) :=
  if c.useCache then
    let dir := workspaceDir hash home c
    let needsNpmInstall := !hasNodeModules fs dir
    if needsNpmInstall then
      if npmExitCode ≠ 0 then
        .error ⟨"npm install failed (exit code " ++ toString npmExitCode
          ++ "): " ++ npmStderr⟩
      else
        .ok (⟨dir, true⟩, ⟨dir :: fs.nodeModules⟩)
    else
      .ok (⟨dir, false⟩, fs)
  else
    if npmExitCode ≠ 0 then
      .error ⟨"npm install failed (exit code " ++ toString npmExitCode
        ++ "): " ++ npmStderr⟩
    else
      .ok (⟨tempDir, true⟩, fs)

/-! ## Concrete instances used when instantiating the theorems -/

/-- A runtime behavior where runtime `A` always fails (as when its
availability check throws `Runtime A is not available`) and every other
runtime succeeds with one result (represented by `7`). -/
def c1run : String → Except Thrown (List ℕ) :=
  fun rt => if rt = "A" then .error (.err ⟨"Runtime A is not available"⟩) else .ok [7]

/-- A runtime behavior where `node` always fails and every other runtime
succeeds with one result (represented by `5`). -/
def c2run : String → Except Thrown (List ℕ) :=
  fun rt => if rt = "node" then .error (.err ⟨"Runtime node is not available"⟩) else .ok [5]

/-- A concrete cached-workspace request. -/
def cW : WorkspaceConfig :=
  ⟨"4.0.0", ⟨"7.8.1", "3.14.0", "4.6.0"⟩, true⟩

/-- The same request with a different Effection version. -/
def cW' : WorkspaceConfig :=
  ⟨"4.1.0", ⟨"7.8.1", "3.14.0", "4.6.0"⟩, true⟩

/-- A concrete temp-mode (uncached) workspace request. -/
def cT : WorkspaceConfig :=
  ⟨"4.0.0", ⟨"7.8.1", "3.14.0", "4.6.0"⟩, false⟩

/-- Propositional equality on `Except` outcomes is decidable (used to
evaluate the embedding at concrete inputs). -/
instance exceptDecEq {ε α : Type} [DecidableEq ε] [DecidableEq α] :
    DecidableEq (Except ε α) := fun x y =>
  match x, y with
  | .ok a, .ok b =>
    if h : a = b then .isTrue (by rw [h]) else .isFalse (by simp [h])
  | .error e, .error f =>
    if h : e = f then .isTrue (by rw [h]) else .isFalse (by simp [h])
  | .ok _, .error _ => .isFalse (by simp)
  | .error _, .ok _ => .isFalse (by simp)

/-! ## Basic lemmas about the statistics engine -/

theorem sortAsc_perm (l : List ℚ) : (sortAsc l).Perm l :=
  List.perm_insertionSort _ l

theorem sortAsc_sorted (l : List ℚ) : (sortAsc l).Sorted (· ≤ ·) :=
  List.sorted_insertionSort _ l

theorem sortAsc_length (l : List ℚ) : (sortAsc l).length = l.length :=
  (sortAsc_perm l).length_eq

theorem sortAsc_ne_nil {l : List ℚ} (h : l ≠ []) : sortAsc l ≠ [] := by
  intro h0
  exact h (((sortAsc_perm l).symm.trans (h0 ▸ List.Perm.refl _)).eq_nil)

/-- On a non-empty input, `calculateStats` returns the record assembled
from the named subexpressions. -/
theorem calculateStats_of_ne_nil (times : List ℚ) (h : times ≠ []) :
    calculateStats times = .ok
      { reps := times.length
        times := times
        avgTime := avgOf times
        minTime := (sortAsc times).getD 0 0
        maxTime := (sortAsc times).getD ((sortAsc times).length - 1) 0
        variance := varOf times
        p50 := percentileVal (sortAsc times) 50
        p95 := percentileVal (sortAsc times) 95
        p99 := percentileVal (sortAsc times) 99 } := by
  have hs : (sortAsc times).isEmpty = false := by
    simp [List.isEmpty_iff, sortAsc_ne_nil h]
  have ht : times.isEmpty = false := by simp [List.isEmpty_iff, h]
  simp only [calculateStats, percentile, hs, ht, Bool.false_eq_true, if_false,
    bind, Except.bind]
  rfl

/-- **C9.** Calling the statistics engine on an empty sample vector always
raises a defined error and never returns a value; for every non-empty
input it returns normally. -/
theorem calculateStats_empty_error_nonempty_ok :
    calculateStats [] = .error "Cannot calculate stats from empty array" ∧
    ∀ times : List ℚ, times ≠ [] → ∃ r, calculateStats times = .ok r :=
  ⟨rfl, fun times h => ⟨_, calculateStats_of_ne_nil times h⟩⟩

theorem calculateStats_empty_error_nonempty_ok_witness :
    calculateStats [] = .error "Cannot calculate stats from empty array" ∧
    ∃ r, calculateStats [3, 1, 2] = .ok r :=
  ⟨calculateStats_empty_error_nonempty_ok.1,
   calculateStats_empty_error_nonempty_ok.2 [3, 1, 2] (by decide)⟩

/-- For `0 < p ≤ 100` and a non-empty vector, the nearest-rank index
`⌈(p/100)·n⌉ - 1` already lies in `[0, n-1]`, so the upper clamp of the
claim is inert and the lower clamp agrees with the source's
`Math.max(0, index)`. -/
theorem ceil_index_bounds (n : ℕ) (hn : 1 ≤ n) (p : ℚ) (hp0 : 0 < p)
    (hp1 : p ≤ 100) :
    0 ≤ ⌈p / 100 * (n : ℚ)⌉ - 1 ∧ ⌈p / 100 * (n : ℚ)⌉ - 1 ≤ (n : ℤ) - 1 := by
  constructor
  · have h1 : (0 : ℚ) < p / 100 * (n : ℚ) := by
      have hn0 : (0 : ℚ) < (n : ℚ) := by exact_mod_cast hn
      positivity
    have : (1 : ℤ) ≤ ⌈p / 100 * (n : ℚ)⌉ := by
      rw [Int.le_ceil_iff]
      simpa using h1
    omega
  · have h2 : p / 100 * (n : ℚ) ≤ (n : ℚ) := by
      have hn0 : (0 : ℚ) ≤ (n : ℚ) := by positivity
      have : p / 100 ≤ 1 := by linarith
      nlinarith
    have : ⌈p / 100 * (n : ℚ)⌉ ≤ (n : ℤ) := by
      exact Int.ceil_le.mpr (by exact_mod_cast h2)
    omega

/-- **C6.** For every non-empty sample vector and every percentile
`p ∈ {50, 95, 99}`, the statistics engine's percentile of the
ascending-sorted vector is the element at index `⌈(p/100)·n⌉ - 1` clamped
to `[0, n-1]` — the nearest-rank value `nearestRankSpec`, written from the
spec's words. -/
theorem percentile_nearest_rank (times : List ℚ) (h : times ≠ []) (p : ℚ)
    (hp : p = 50 ∨ p = 95 ∨ p = 99) :
    percentile (sortAsc times) p = .ok (nearestRankSpec times p) := by
  have hs : (sortAsc times).isEmpty = false := by
    simp [List.isEmpty_iff, sortAsc_ne_nil h]
  have hn : 1 ≤ (sortAsc times).length := by
    have := sortAsc_ne_nil h
    cases hsort : sortAsc times with
    | nil => exact absurd hsort this
    | cons a t => simp [hsort]
  have hp0 : 0 < p := by rcases hp with rfl | rfl | rfl <;> norm_num
  have hp1 : p ≤ 100 := by rcases hp with rfl | rfl | rfl <;> norm_num
  obtain ⟨hlo, hhi⟩ := ceil_index_bounds (sortAsc times).length hn p hp0 hp1
  have hclamp :
      min (((sortAsc times).length : ℤ) - 1)
        (max 0 (⌈p / 100 * ((sortAsc times).length : ℚ)⌉ - 1)) =
      max 0 (⌈p / 100 * ((sortAsc times).length : ℚ)⌉ - 1) := by
    omega
  simp only [percentile, hs, Bool.false_eq_true, if_false,
    percentileVal, nearestRankSpec, hclamp]

theorem percentile_nearest_rank_witness :
    percentile (sortAsc [3, 1, 2]) 50 = .ok (nearestRankSpec [3, 1, 2] 50) :=
  percentile_nearest_rank [3, 1, 2] (by decide) 50 (Or.inl rfl)

/-- The `reduce`-style fold accumulates the sum of the images. -/
theorem foldl_add_map (f : ℚ → ℚ) (l : List ℚ) (a : ℚ) :
    l.foldl (fun acc t => acc + f t) a = a + (l.map f).sum := by
  induction l generalizing a with
  | nil => simp
  | cons x xs ih => simp [ih, add_assoc]

theorem sumOf_eq_sum (l : List ℚ) : sumOf l = l.sum := by
  have := foldl_add_map id l 0
  simpa [sumOf] using this

/-- Two permutations of the same samples sort to the same list: the
sorted list is the unique `≤`-sorted arrangement of the multiset. -/
theorem sortAsc_eq_of_perm {S S' : List ℚ} (hperm : S.Perm S') :
    sortAsc S = sortAsc S' :=
  List.eq_of_perm_of_sorted
    (((sortAsc_perm S).trans hperm).trans (sortAsc_perm S').symm)
    (sortAsc_sorted S) (sortAsc_sorted S')

theorem avgOf_eq_of_perm {S S' : List ℚ} (hperm : S.Perm S') :
    avgOf S = avgOf S' := by
  simp [avgOf, sumOf_eq_sum, hperm.sum_eq, hperm.length_eq]

theorem varOf_eq_of_perm {S S' : List ℚ} (hperm : S.Perm S') :
    varOf S = varOf S' := by
  have havg := avgOf_eq_of_perm hperm
  have hmap :
      (S.map (fun t => (t - avgOf S') ^ 2)).Perm
        (S'.map (fun t => (t - avgOf S') ^ 2)) :=
    hperm.map _
  simp [varOf, foldl_add_map, hperm.length_eq, havg, hmap.sum_eq]

/-- **C7.** `calculateStats` is invariant under permutation of the sample
vector: all seven published fields (`avgTime`, `minTime`, `maxTime`,
`stdDev = √variance`, `p50`, `p95`, `p99`) coincide. -/
theorem calculateStats_perm_invariant (S S' : List ℚ) (hperm : S.Perm S')
    (h : S ≠ []) (r r' : StatsResult)
    (hr : calculateStats S = .ok r) (hr' : calculateStats S' = .ok r') :
    r.avgTime = r'.avgTime ∧ r.minTime = r'.minTime ∧
    r.maxTime = r'.maxTime ∧
    Real.sqrt r.variance = Real.sqrt r'.variance ∧
    r.p50 = r'.p50 ∧ r.p95 = r'.p95 ∧ r.p99 = r'.p99 := by
  have h' : S' ≠ [] := by
    intro h0
    exact h (hperm.trans (h0 ▸ List.Perm.refl _)).eq_nil
  rw [calculateStats_of_ne_nil S h] at hr
  rw [calculateStats_of_ne_nil S' h'] at hr'
  have hr2 := (Except.ok.injEq _ _).mp hr
  have hr2' := (Except.ok.injEq _ _).mp hr'
  subst hr2 hr2'
  have hsort := sortAsc_eq_of_perm hperm
  refine ⟨?_, ?_, ?_, ?_, ?_, ?_, ?_⟩ <;>
    simp [avgOf_eq_of_perm hperm, varOf_eq_of_perm hperm, hsort]

theorem calculateStats_perm_invariant_witness :
    avgOf [3, 1, 2] = avgOf [1, 2, 3] ∧
    (sortAsc [3, 1, 2]).getD 0 0 = (sortAsc [1, 2, 3]).getD 0 0 ∧
    (sortAsc [3, 1, 2]).getD ((sortAsc [3, 1, 2]).length - 1) 0 =
      (sortAsc [1, 2, 3]).getD ((sortAsc [1, 2, 3]).length - 1) 0 ∧
    Real.sqrt (varOf [3, 1, 2]) = Real.sqrt (varOf [1, 2, 3]) ∧
    percentileVal (sortAsc [3, 1, 2]) 50 = percentileVal (sortAsc [1, 2, 3]) 50 ∧
    percentileVal (sortAsc [3, 1, 2]) 95 = percentileVal (sortAsc [1, 2, 3]) 95 ∧
    percentileVal (sortAsc [3, 1, 2]) 99 = percentileVal (sortAsc [1, 2, 3]) 99 :=
  calculateStats_perm_invariant [3, 1, 2] [1, 2, 3] (by decide) (by decide)
    _ _ (calculateStats_of_ne_nil [3, 1, 2] (by decide))
    (calculateStats_of_ne_nil [1, 2, 3] (by decide))

/-- Monotone indexing into a sorted list. -/
theorem getD_mono_of_sorted {s : List ℚ} (hs : s.Sorted (· ≤ ·)) {i j : ℕ}
    (hij : i ≤ j) (hj : j < s.length) : s.getD i 0 ≤ s.getD j 0 := by
  have hi : i < s.length := lt_of_le_of_lt hij hj
  rw [List.getD_eq_getElem s 0 hi, List.getD_eq_getElem s 0 hj]
  have := hs.rel_get_of_le (a := ⟨i, hi⟩) (b := ⟨j, hj⟩) hij
  simpa [List.get_eq_getElem] using this

/-- The head of a sorted list bounds its members from below. -/
theorem getD_zero_le_of_sorted {s : List ℚ} (hs : s.Sorted (· ≤ ·)) {x : ℚ}
    (hx : x ∈ s) : s.getD 0 0 ≤ x := by
  obtain ⟨i, rfl⟩ := List.mem_iff_get.mp hx
  have := getD_mono_of_sorted hs (Nat.zero_le i) i.isLt
  simpa [List.getD_eq_getElem s 0 i.isLt, List.get_eq_getElem] using this

/-- The last element of a sorted list bounds its members from above. -/
theorem le_getD_last_of_sorted {s : List ℚ} (hs : s.Sorted (· ≤ ·)) {x : ℚ}
    (hx : x ∈ s) : x ≤ s.getD (s.length - 1) 0 := by
  obtain ⟨i, rfl⟩ := List.mem_iff_get.mp hx
  have hlast : s.length - 1 < s.length := by
    have := i.isLt
    omega
  have hle : (i : ℕ) ≤ s.length - 1 := by
    have := i.isLt
    omega
  have := getD_mono_of_sorted hs hle hlast
  simpa [List.getD_eq_getElem s 0 i.isLt, List.get_eq_getElem] using this

/-- The nearest-rank index the source computes for percentile `p`. -/
theorem percentileVal_index_le {s : List ℚ} (hn : 1 ≤ s.length) {p q : ℚ}
    (hpq : p ≤ q) :
    (max 0 (⌈p / 100 * (s.length : ℚ)⌉ - 1)).toNat ≤
      (max 0 (⌈q / 100 * (s.length : ℚ)⌉ - 1)).toNat := by
  have hceil : ⌈p / 100 * (s.length : ℚ)⌉ ≤ ⌈q / 100 * (s.length : ℚ)⌉ := by
    apply Int.ceil_le_ceil
    have hn0 : (0 : ℚ) ≤ (s.length : ℚ) := by positivity
    have : p / 100 ≤ q / 100 := by linarith
    exact mul_le_mul_of_nonneg_right this hn0
  omega

/-- The chain `min ≤ p50 ≤ p95 ≤ p99 ≤ max` on the sorted samples. -/
theorem percentileVal_chain {s : List ℚ} (hs : s.Sorted (· ≤ ·))
    (hn : 1 ≤ s.length) :
    s.getD 0 0 ≤ percentileVal s 50 ∧
    percentileVal s 50 ≤ percentileVal s 95 ∧
    percentileVal s 95 ≤ percentileVal s 99 ∧
    percentileVal s 99 ≤ s.getD (s.length - 1) 0 := by
  have h99 := (ceil_index_bounds s.length hn 99 (by norm_num) (by norm_num)).2
  have hk99 : (max 0 (⌈(99 : ℚ) / 100 * (s.length : ℚ)⌉ - 1)).toNat ≤
      s.length - 1 := by omega
  have hlast : s.length - 1 < s.length := by omega
  refine ⟨?_, ?_, ?_, ?_⟩
  · exact getD_mono_of_sorted hs (Nat.zero_le _)
      (lt_of_le_of_lt
        (le_trans (percentileVal_index_le hn (by norm_num : (50:ℚ) ≤ 99)) hk99)
        hlast)
  · exact getD_mono_of_sorted hs
      (percentileVal_index_le hn (by norm_num : (50:ℚ) ≤ 95))
      (lt_of_le_of_lt
        (le_trans (percentileVal_index_le hn (by norm_num : (95:ℚ) ≤ 99)) hk99)
        hlast)
  · exact getD_mono_of_sorted hs
      (percentileVal_index_le hn (by norm_num : (95:ℚ) ≤ 99))
      (lt_of_le_of_lt hk99 hlast)
  · exact getD_mono_of_sorted hs hk99 hlast

/-- The average of the samples lies between the sorted extremes. -/
theorem avgOf_between {S : List ℚ} (h : S ≠ []) :
    (sortAsc S).getD 0 0 ≤ avgOf S ∧
    avgOf S ≤ (sortAsc S).getD ((sortAsc S).length - 1) 0 := by
  have hsorted := sortAsc_sorted S
  have hmem : ∀ x ∈ S, x ∈ sortAsc S := fun x hx =>
    (sortAsc_perm S).symm.mem_iff.mp hx
  have hlen : 0 < S.length := List.length_pos.mpr h
  have hlenq : (0 : ℚ) < (S.length : ℚ) := by exact_mod_cast hlen
  constructor
  · have hlow : ∀ x ∈ S, (sortAsc S).getD 0 0 ≤ x := fun x hx =>
      getD_zero_le_of_sorted hsorted (hmem x hx)
    have hsum := List.card_nsmul_le_sum S _ hlow
    rw [nsmul_eq_mul] at hsum
    rw [avgOf, sumOf_eq_sum, le_div_iff₀ hlenq]
    linarith [hsum]
  · have hhigh : ∀ x ∈ S, x ≤ (sortAsc S).getD ((sortAsc S).length - 1) 0 :=
      fun x hx => le_getD_last_of_sorted hsorted (hmem x hx)
    have hsum := List.sum_le_card_nsmul S _ hhigh
    rw [nsmul_eq_mul] at hsum
    rw [avgOf, sumOf_eq_sum, div_le_iff₀ hlenq]
    linarith [hsum]

/-- **C8.** For every non-empty sample vector, the computed statistics
satisfy `minTime ≤ p50 ≤ p95 ≤ p99 ≤ maxTime`, and `avgTime` lies within
`[minTime, maxTime]`. -/
theorem calculateStats_ordered (S : List ℚ) (h : S ≠ []) (r : StatsResult)
    (hr : calculateStats S = .ok r) :
    r.minTime ≤ r.p50 ∧ r.p50 ≤ r.p95 ∧ r.p95 ≤ r.p99 ∧
    r.p99 ≤ r.maxTime ∧ r.minTime ≤ r.avgTime ∧ r.avgTime ≤ r.maxTime := by
  rw [calculateStats_of_ne_nil S h] at hr
  have hr2 := (Except.ok.injEq _ _).mp hr
  subst hr2
  have hn : 1 ≤ (sortAsc S).length := by
    have := sortAsc_ne_nil h
    cases hsort : sortAsc S with
    | nil => exact absurd hsort this
    | cons a t => simp [hsort]
  obtain ⟨h1, h2, h3, h4⟩ := percentileVal_chain (sortAsc_sorted S) hn
  obtain ⟨h5, h6⟩ := avgOf_between h
  exact ⟨h1, h2, h3, h4, h5, h6⟩

theorem calculateStats_ordered_witness :
    (sortAsc [3, 1, 2]).getD 0 0 ≤ percentileVal (sortAsc [3, 1, 2]) 50 ∧
    percentileVal (sortAsc [3, 1, 2]) 50 ≤ percentileVal (sortAsc [3, 1, 2]) 95 ∧
    percentileVal (sortAsc [3, 1, 2]) 95 ≤ percentileVal (sortAsc [3, 1, 2]) 99 ∧
    percentileVal (sortAsc [3, 1, 2]) 99 ≤
      (sortAsc [3, 1, 2]).getD ((sortAsc [3, 1, 2]).length - 1) 0 ∧
    (sortAsc [3, 1, 2]).getD 0 0 ≤ avgOf [3, 1, 2] ∧
    avgOf [3, 1, 2] ≤ (sortAsc [3, 1, 2]).getD ((sortAsc [3, 1, 2]).length - 1) 0 :=
  calculateStats_ordered [3, 1, 2] (by decide) _
    (calculateStats_of_ne_nil [3, 1, 2] (by decide))

/-! ## Results: `wrapResult` and the `successes`/`failures` partition -/

/-- **C10.** `wrapResult` never propagates an exception: it returns the
`ok` result exactly when the wrapped operation completes, and otherwise
an `err` result carrying the given context; consequently `successes` and
`failures` partition any result list — projecting every element onto its
unique side in input order recovers exactly the two outputs, whose
lengths sum to the input's. -/
theorem wrapResult_partition (T : Type) (context : String)
    (op : Except Thrown T) (results : List (Result T)) :
    (∀ v, op = .ok v → wrapResult context op = .ok v) ∧
    (∀ e, op = .error e → wrapResult context op = .err (toError e) context) ∧
    (results.map resultSide).filterMap Sum.getLeft? = successes results ∧
    (results.map resultSide).filterMap Sum.getRight? = failures results ∧
    (successes results).length + (failures results).length = results.length := by
  refine ⟨fun v hv => by rw [hv]; rfl, fun e he => by rw [he]; rfl, ?_, ?_, ?_⟩
  · induction results with
    | nil => rfl
    | cons r rs ih =>
      cases r <;> simp [successes, resultSide, okValue, Sum.getLeft?] at ih ⊢ <;>
        simpa [successes] using ih
  · induction results with
    | nil => rfl
    | cons r rs ih =>
      cases r <;> simp [failures, resultSide, errPair, Sum.getRight?] at ih ⊢ <;>
        simpa [failures] using ih
  · induction results with
    | nil => rfl
    | cons r rs ih =>
      cases r <;> simp [successes, failures, okValue, errPair] at ih ⊢ <;> omega

theorem wrapResult_partition_witness :
    wrapResult "node" (.ok 5 : Except Thrown ℕ) = .ok 5 ∧
    wrapResult "deno" (.error (.other "boom") : Except Thrown ℕ) =
      .err ⟨"boom"⟩ "deno" ∧
    (([.ok 1, .err ⟨"x"⟩ "node", .ok 2] : List (Result ℕ)).map
        resultSide).filterMap Sum.getLeft? =
      successes [.ok 1, .err ⟨"x"⟩ "node", .ok 2] ∧
    (([.ok 1, .err ⟨"x"⟩ "node", .ok 2] : List (Result ℕ)).map
        resultSide).filterMap Sum.getRight? =
      failures [.ok 1, .err ⟨"x"⟩ "node", .ok 2] ∧
    (successes ([.ok 1, .err ⟨"x"⟩ "node", .ok 2] : List (Result ℕ))).length +
      (failures ([.ok 1, .err ⟨"x"⟩ "node", .ok 2] : List (Result ℕ))).length =
      ([.ok 1, .err ⟨"x"⟩ "node", .ok 2] : List (Result ℕ)).length :=
  ⟨(wrapResult_partition ℕ "node" (.ok 5) []).1 5 rfl,
   (wrapResult_partition ℕ "deno" (.error (.other "boom")) []).2.1
     (.other "boom") rfl,
   (wrapResult_partition ℕ "node" (.ok 5)
     [.ok 1, .err ⟨"x"⟩ "node", .ok 2]).2.2.1,
   (wrapResult_partition ℕ "node" (.ok 5)
     [.ok 1, .err ⟨"x"⟩ "node", .ok 2]).2.2.2.1,
   (wrapResult_partition ℕ "node" (.ok 5)
     [.ok 1, .err ⟨"x"⟩ "node", .ok 2]).2.2.2.2⟩

/-! ## Orchestration: non-fail-fast aggregation and the `fail-fast` flag -/

/-- **C2.** In non-fail-fast mode with runtimes `[A, B]` where `A`'s run
fails and `B`'s succeeds: every runtime is attempted, exactly `B`'s
result set is written, the failure summary names `A`, and — in general —
the exit code is non-zero iff at least one runtime failed (here it
is 1). -/
theorem runCommand_collects_failures (β : Type) (A B : String)
    (runForRuntime : String → Except Thrown (List β)) (e : Thrown)
    (bs : List β) (hA : runForRuntime A = .error e)
    (hB : runForRuntime B = .ok bs) :
    (runCommandLoop β false [A, B] runForRuntime).invoked = [A, B] ∧
    (runCommandLoop β false [A, B] runForRuntime).written = bs ∧
    (runCommandLoop β false [A, B] runForRuntime).failureSummary = [A] ∧
    (runCommandLoop β false [A, B] runForRuntime).exitCode = 1 ∧
    ∀ (runtimes : List String) (run : String → Except Thrown (List β)),
      ((runCommandLoop β false runtimes run).exitCode ≠ 0 ↔
        ∃ rt ∈ runtimes, ∃ e', run rt = .error e') := by
  refine ⟨rfl, ?_, ?_, ?_, ?_⟩
  · simp [runCommandLoop, successes, wrapResult, hA, hB, okValue]
  · simp [runCommandLoop, failures, wrapResult, hA, hB, errPair]
  · simp [runCommandLoop, failures, wrapResult, hA, hB, errPair]
  · intro runtimes run
    have hiff : failures (runtimes.map fun rt => wrapResult rt (run rt)) ≠ [] ↔
        ∃ rt ∈ runtimes, ∃ e', run rt = .error e' := by
      simp only [failures]
      rw [Ne, List.filterMap_eq_nil_iff]
      constructor
      · intro hall
        by_contra hno
        push_neg at hno
        apply hall
        intro a ha
        obtain ⟨rt, hrt, rfl⟩ := List.mem_map.mp ha
        cases hrun : run rt with
        | ok v => simp [wrapResult, hrun, errPair]
        | error e' => exact absurd hrun (hno rt hrt e')
      · rintro ⟨rt, hrt, e', hrun⟩ hall
        have := hall (wrapResult rt (run rt))
          (List.mem_map.mpr ⟨rt, hrt, rfl⟩)
        rw [hrun] at this
        simp [wrapResult, errPair] at this
    constructor
    · intro hne
      apply hiff.mp
      intro hnil
      simp [runCommandLoop, hnil] at hne
    · intro hex
      have := hiff.mpr hex
      simp only [runCommandLoop]
      have hlen : 0 < (failures (runtimes.map fun rt =>
          wrapResult rt (run rt))).length :=
        List.length_pos.mpr this
      simp [hlen, Nat.pos_iff_ne_zero.mp hlen]

theorem runCommand_collects_failures_witness :
    (runCommandLoop ℕ false ["node", "deno"] c2run).invoked = ["node", "deno"] ∧
    (runCommandLoop ℕ false ["node", "deno"] c2run).written = [5] ∧
    (runCommandLoop ℕ false ["node", "deno"] c2run).failureSummary = ["node"] ∧
    (runCommandLoop ℕ false ["node", "deno"] c2run).exitCode = 1 ∧
    (runCommandLoop ℕ false ["node", "deno"] c2run).exitCode ≠ 0 := by
  have h := runCommand_collects_failures ℕ "node" "deno" c2run
    (.err ⟨"Runtime node is not available"⟩) [5] (by decide) (by decide)
  exact ⟨h.1, h.2.1, h.2.2.1, h.2.2.2.1,
    (h.2.2.2.2 ["node", "deno"] c2run).mpr
      ⟨"node", by decide, .err ⟨"Runtime node is not available"⟩, by decide⟩⟩

/-- **C1 (counterexample / code bug).**  `run.ts` declares the
`fail-fast` option (lines 72–78, "Stop on first failure"; help text:
"Stop on first runtime failure") but `runCommand` never reads it: with
`fail-fast` set, runtimes `["A", "B"]`, `A` failing and `B` succeeding,
the loop still invokes `B`, still writes `B`'s result, and exits 1 —
the orchestration does not halt on the first failure. -/
theorem failFast_flag_ignored :
    (runCommandLoop ℕ true ["A", "B"] c1run).invoked = ["A", "B"] ∧
    (runCommandLoop ℕ true ["A", "B"] c1run).written = [7] ∧
    (runCommandLoop ℕ true ["A", "B"] c1run).failureSummary = ["A"] ∧
    (runCommandLoop ℕ true ["A", "B"] c1run).exitCode = 1 := by
  decide

/-! ## Harness exit contract -/

/-- A line keeps matching `^\{` under appending further text. -/
theorem matchesBrace_append (s t : String) (h : matchesBrace s = true) :
    matchesBrace (s ++ t) = true := by
  unfold matchesBrace at h ⊢
  rw [String.data_append, List.head?_append]
  simp_all

/-- The structured output line matches `^\{`. -/
theorem matchesBrace_jsonLine (library : String) (s : StatsResult) :
    matchesBrace (jsonLine library s) = true := by
  unfold jsonLine
  repeat apply matchesBrace_append
  decide

/-- `validateHarnessArgs` passing means every check failed. -/
theorem validate_none_repeat_pos (a : HarnessArgs)
    (hv : validateHarnessArgs a = none) {n : ℤ} (hn : a.«repeat» = some n) :
    0 < n := by
  unfold validateHarnessArgs at hv
  split_ifs at hv with h1 h2 h3 h4
  have := h3
  rw [hn] at this
  simp [leNum] at this
  omega

/-- **C3 (amended).** Every harness invocation whose parsed arguments
fail validation or name an unknown scenario exits 1, prints the
available-scenarios diagnostic on standard error, and writes no stdout
line matching `^\{`; every invocation with a known scenario, `--json`,
and a `--repeat` value that parsed to a number (rather than `NaN`)
writes exactly one such line and exits 0. -/
theorem harnessMain_exit_contract (timings : ℕ → ℚ) (args : List String) :
    ((validateHarnessArgs (parseHarnessArgs args)).isSome = true ∨
        getScenario (parseHarnessArgs args).scenario = none →
      (harnessMain timings args).exitCode = 1 ∧
      availableLine ∈ (harnessMain timings args).stderrLines ∧
      braceLineCount (harnessMain timings args) = 0) ∧
    (validateHarnessArgs (parseHarnessArgs args) = none →
      getScenario (parseHarnessArgs args).scenario ≠ none →
      (parseHarnessArgs args).json = true →
      (parseHarnessArgs args).«repeat» ≠ none →
      braceLineCount (harnessMain timings args) = 1 ∧
      (harnessMain timings args).exitCode = 0) := by
  constructor
  · intro h
    cases hv : validateHarnessArgs (parseHarnessArgs args) with
    | some msg =>
      simp [harnessMain, hv, braceLineCount]
    | none =>
      rcases h with h | h
      · rw [hv] at h
        simp at h
      · simp [harnessMain, hv, h, braceLineCount]
  · intro hv hsc hjson hrep
    obtain ⟨library, hlib⟩ := Option.ne_none_iff_exists'.mp hsc
    obtain ⟨n, hn⟩ := Option.ne_none_iff_exists'.mp hrep
    have hpos : 0 < n := validate_none_repeat_pos _ hv hn
    have hne : (List.range n.toNat).map timings ≠ [] := by
      have : n.toNat ≠ 0 := by omega
      simp [List.map_eq_nil_iff, List.range_eq_nil, this]
    obtain ⟨r, hr⟩ : ∃ r,
        calculateStats ((List.range n.toNat).map timings) = .ok r :=
      ⟨_, calculateStats_of_ne_nil _ hne⟩
    have hmeas : measure timings (some n) = .ok r := by
      simpa [measure] using hr
    simp only [harnessMain, hv, hlib, hn, hmeas, hjson, braceLineCount,
      if_true, List.filter]
    rw [matchesBrace_jsonLine]
    simp

/-- **C3 (counterexample).** The invocation
`--scenario effection.recursion --json --repeat x` names a known scenario
and passes `--json`, yet the harness exits 1 with no `^\{` stdout line:
`parseInt("x", 10)` is `NaN`, which passes the `repeat <= 0` check (all
comparisons against `NaN` are false), the measured loop then runs zero
times, and `calculateStats` throws on the empty sample list. -/
theorem harnessMain_nan_repeat_counterexample :
    (harnessMain (fun _ => 1)
      ["--scenario", "effection.recursion", "--json", "--repeat", "x"]).exitCode
        = 1 ∧
    braceLineCount (harnessMain (fun _ => 1)
      ["--scenario", "effection.recursion", "--json", "--repeat", "x"]) = 0 := by
  decide

theorem harnessMain_exit_contract_witness :
    ((harnessMain (fun _ => 1) ["--scenario", "bogus"]).exitCode = 1 ∧
      availableLine ∈
        (harnessMain (fun _ => 1) ["--scenario", "bogus"]).stderrLines ∧
      braceLineCount (harnessMain (fun _ => 1) ["--scenario", "bogus"]) = 0) ∧
    (braceLineCount (harnessMain (fun _ => 1)
        ["--scenario", "effection.recursion", "--json"]) = 1 ∧
      (harnessMain (fun _ => 1)
        ["--scenario", "effection.recursion", "--json"]).exitCode = 0) :=
  ⟨(harnessMain_exit_contract (fun _ => 1) ["--scenario", "bogus"]).1
      (Or.inr (by decide)),
   (harnessMain_exit_contract (fun _ => 1)
        ["--scenario", "effection.recursion", "--json"]).2
      (by decide) (by decide) (by decide) (by decide)⟩

/-! ## Workspace provisioning -/

theorem string_append_cancel_left {a b c : String} (h : a ++ b = a ++ c) :
    b = c := by
  apply String.ext
  have := congrArg String.data h
  simp only [String.data_append] at this
  exact List.append_cancel_left this

theorem string_append_cancel_right {a b c : String} (h : a ++ c = b ++ c) :
    a = b := by
  apply String.ext
  have := congrArg String.data h
  simp only [String.data_append] at this
  exact List.append_cancel_right this

/-- Two configs with the same comparison versions serialize equally only
if their Effection versions agree. -/
theorem serializeCacheConfig_version_inj {c c' : WorkspaceConfig}
    (hcomp : c'.comparisonVersions = c.comparisonVersions)
    (h : serializeCacheConfig c' = serializeCacheConfig c) :
    c'.effectionVersion = c.effectionVersion := by
  unfold serializeCacheConfig at h
  rw [hcomp] at h
  apply String.ext
  have hd := congrArg String.data h
  simp only [String.data_append, ← List.append_assoc] at hd
  have h1 := List.append_cancel_right hd
  have h2 := List.append_cancel_right h1
  have h3 := List.append_cancel_right h2
  have h4 := List.append_cancel_right h3
  have h5 := List.append_cancel_right h4
  have h6 := List.append_cancel_right h5
  have h7 := List.append_cancel_right h6
  exact List.append_cancel_left h7

/-- **C5.** Every provision call whose dependency-install subprocess runs
and exits non-zero fails as a whole: `useWorkspace` propagates the
install error and no workspace reaches the caller. -/
theorem useWorkspace_install_failure (hash : String → String)
    (home tempDir npmStderr : String) (npmExitCode : ℕ)
    (c : WorkspaceConfig) (fs : FSState) (hcode : npmExitCode ≠ 0)
    (hruns : c.useCache = false ∨
      hasNodeModules fs (workspaceDir hash home c) = false) :
    useWorkspace hash home tempDir npmExitCode npmStderr c fs =
      .error ⟨"npm install failed (exit code " ++ toString npmExitCode
        ++ "): " ++ npmStderr⟩ := by
  rcases hruns with h | h
  · simp [useWorkspace, h, hcode]
  · cases hc : c.useCache
    · simp [useWorkspace, hc, hcode]
    · simp [useWorkspace, hc, h, hcode]

theorem useWorkspace_install_failure_witness :
    useWorkspace id "/root" "/tmp/bench-w" 1 "EAI_AGAIN registry.npmjs.org"
        cT ⟨[]⟩ =
      .error ⟨"npm install failed (exit code 1): EAI_AGAIN registry.npmjs.org"⟩ :=
  useWorkspace_install_failure id "/root" "/tmp/bench-w"
    "EAI_AGAIN registry.npmjs.org" 1 cT ⟨[]⟩ (by decide) (Or.inl rfl)

/-- **C4.** With caching enabled and a cold cache, two successive
provision calls with identical `{version, comparisonVersions}` run the
dependency-install step exactly once — the first installs, the second
finds the `node_modules` marker and skips — and a further call with a
different version maps to a different cache key and installs afresh.
Collision-freeness of the (SHA-256) cache-key hash is carried as the
injectivity hypothesis. -/
theorem useWorkspace_cache_reuse (hash : String → String)
    (hinj : Function.Injective hash) (home t1 t2 t3 s1 s2 s3 : String)
    (c c' : WorkspaceConfig) (fs0 : FSState)
    (hc : c.useCache = true) (hc' : c'.useCache = true)
    (hcomp : c'.comparisonVersions = c.comparisonVersions)
    (hver : c'.effectionVersion ≠ c.effectionVersion)
    (hfresh : hasNodeModules fs0 (workspaceDir hash home c) = false)
    (hfresh' : hasNodeModules fs0 (workspaceDir hash home c') = false) :
    useWorkspace hash home t1 0 s1 c fs0 =
      .ok (⟨workspaceDir hash home c, true⟩,
        ⟨workspaceDir hash home c :: fs0.nodeModules⟩) ∧
    useWorkspace hash home t2 0 s2 c
        ⟨workspaceDir hash home c :: fs0.nodeModules⟩ =
      .ok (⟨workspaceDir hash home c, false⟩,
        ⟨workspaceDir hash home c :: fs0.nodeModules⟩) ∧
    computeCacheKey hash c' ≠ computeCacheKey hash c ∧
    useWorkspace hash home t3 0 s3 c'
        ⟨workspaceDir hash home c :: fs0.nodeModules⟩ =
      .ok (⟨workspaceDir hash home c', true⟩,
        ⟨workspaceDir hash home c' ::
          workspaceDir hash home c :: fs0.nodeModules⟩) := by
  have hkey : computeCacheKey hash c' ≠ computeCacheKey hash c := by
    intro hk
    exact hver (serializeCacheConfig_version_inj hcomp (hinj hk))
  have hdir : workspaceDir hash home c' ≠ workspaceDir hash home c := by
    intro hd
    exact hkey (string_append_cancel_left hd)
  refine ⟨?_, ?_, hkey, ?_⟩
  · simp [useWorkspace, hc, hfresh]
  · simp [useWorkspace, hc, hasNodeModules]
  · have hmiss : hasNodeModules
        ⟨workspaceDir hash home c :: fs0.nodeModules⟩
        (workspaceDir hash home c') = false := by
      simp only [hasNodeModules] at hfresh' ⊢
      rw [List.contains_cons, Bool.or_eq_false_iff]
      refine ⟨?_, hfresh'⟩
      simp [beq_eq_false_iff_ne, hdir, Ne.symm hdir]
    simp [useWorkspace, hc', hmiss]

theorem useWorkspace_cache_reuse_witness :
    useWorkspace id "/root" "t1" 0 "" cW ⟨[]⟩ =
      .ok (⟨workspaceDir id "/root" cW, true⟩,
        ⟨[workspaceDir id "/root" cW]⟩) ∧
    useWorkspace id "/root" "t2" 0 "" cW ⟨[workspaceDir id "/root" cW]⟩ =
      .ok (⟨workspaceDir id "/root" cW, false⟩,
        ⟨[workspaceDir id "/root" cW]⟩) ∧
    computeCacheKey id cW' ≠ computeCacheKey id cW ∧
    useWorkspace id "/root" "t3" 0 "" cW' ⟨[workspaceDir id "/root" cW]⟩ =
      .ok (⟨workspaceDir id "/root" cW', true⟩,
        ⟨[workspaceDir id "/root" cW', workspaceDir id "/root" cW]⟩) :=
  useWorkspace_cache_reuse id (fun _ _ h => h) "/root" "t1" "t2" "t3"
    "" "" "" cW cW' ⟨[]⟩ rfl rfl rfl (by decide) (by decide) (by decide)

end Bench
